import Mathlib

/-!
Verification of the terminal AI-assistant repository: a shallow embedding of
the session manager, the REPL command loop, the raw-keystroke input handler
and the sandboxed file tools, with theorems settling the specification
claims about them.

Conventions of the embedding:
- JavaScript strings are modelled by Lean strings; `String.prototype.length`
  (UTF-16 code units) is modelled by counting two units for characters above
  the basic multilingual plane.
- Thrown JavaScript exceptions are modelled by `Except String` carrying the
  error message; a `try/catch` block is a `match` on that value.
- Timestamps (`new Date()`) are passed in as explicit `Nat` parameters.
-/

/-- JS `String.prototype.includes`: substring containment test. -/
def strContains (s sub : String) : Bool :=
  decide (sub.toList <:+: s.toList)

/- ===================== Session manager (session/manager.ts) ============ -/

/-- Message roles of `SessionMessage`. -/
inductive Role where
  | user
  | assistant
  | system
deriving DecidableEq, Repr

/-- The string form of a role, as stored in provider payloads. -/
def Role.toName : Role → String
  | .user => "user"
  | .assistant => "assistant"
  | .system => "system"

/-- `SessionMessage`: role, content and creation timestamp. -/
structure SessionMessage where
  role : Role
  content : String
  timestamp : Nat
deriving DecidableEq, Repr

/-- The value-level state of a `SessionManager`: the ordered message log and
the configured token ceiling (`maxTokens`, default 100000; the CLI always
constructs the manager with 100000). -/
structure SessionState where
  messages : List SessionMessage
  maxTokens : Nat
deriving DecidableEq, Repr

/-- The regex class `[一-龥]` used by `estimateTokens`. -/
def isChineseChar (c : Char) : Bool :=
  0x4e00 ≤ c.toNat && c.toNat ≤ 0x9fa5

/-- UTF-16 code units contributed by one character (JS string length unit). -/
def jsCharUnits (c : Char) : Nat :=
  if c.toNat < 0x10000 then 1 else 2

/-- JS `text.length`: number of UTF-16 code units. -/
def jsLength (s : String) : Nat :=
  (s.toList.map jsCharUnits).sum

/-- Number of matches of `[一-龥]` in the text (each such character
is a single UTF-16 unit). -/
def chineseCount (s : String) : Nat :=
  (s.toList.filter isChineseChar).length

/-- `SessionManager.estimateTokens`: Chinese characters at about 2 chars per
token, everything else at about 4 chars per token, each part rounded up. -/
def estimateTokens (text : String) : Nat :=
  let chineseChars := chineseCount text
  let otherChars := jsLength text - chineseChars
  (chineseChars + 1) / 2 + (otherChars + 3) / 4

/-- The loop body of `getEstimatedTokenCount` over an explicit list:
`total += estimateTokens(content); total += 10` per message. -/
def tokenCountOfList (msgs : List SessionMessage) : Nat :=
  msgs.foldl (fun total m => total + (estimateTokens m.content + 10)) 0

/-- `SessionManager.getEstimatedTokenCount`. -/
def getEstimatedTokenCount (s : SessionState) : Nat :=
  tokenCountOfList s.messages

/-- `SessionManager.addMessage`: push a fresh message at the newest end. -/
def addMessage (s : SessionState) (role : Role) (content : String)
    (timestamp : Nat) : SessionState :=
  { s with messages :=
      s.messages ++ [{ role := role, content := content, timestamp := timestamp }] }

/-- `SessionManager.clear`. -/
def clearSession (s : SessionState) : SessionState :=
  { s with messages := [] }

/-- `SessionManager.getMessageCount`. -/
def getMessageCount (s : SessionState) : Nat :=
  s.messages.length

/-- `SessionManager.getMessagesForAI`: project each message to its
`(role, content)` pair, dropping the timestamp. -/
def getMessagesForAI (s : SessionState) : List (String × String) :=
  s.messages.map (fun m => (m.role.toName, m.content))

/-- The `while` loop of `trimToTokenLimit`: while the estimated count
exceeds the ceiling and the log is non-empty, shift off the oldest
message. -/
def trimAux (maxTokens : Nat) : List SessionMessage → List SessionMessage
  | [] => []
  | m :: rest =>
    if maxTokens < tokenCountOfList (m :: rest) then trimAux maxTokens rest
    else m :: rest

/-- `SessionManager.trimToTokenLimit`: returns whether trimming happened
together with the state after trimming. -/
def trimToTokenLimit (s : SessionState) : Bool × SessionState :=
  if getEstimatedTokenCount s ≤ s.maxTokens then (false, s)
  else (true, { s with messages := trimAux s.maxTokens s.messages })

/- ------------- session lemmas ------------- -/

theorem foldl_add_shift (f : SessionMessage → Nat) (l : List SessionMessage) :
    ∀ a : Nat, l.foldl (fun total m => total + f m) a =
      a + l.foldl (fun total m => total + f m) 0 := by
  induction l with
  | nil => intro a; simp
  | cons m rest ih =>
    intro a
    simp only [List.foldl_cons]
    rw [ih (a + f m), ih (0 + f m)]
    omega

theorem tokenCountOfList_cons (m : SessionMessage) (rest : List SessionMessage) :
    tokenCountOfList (m :: rest) =
      (estimateTokens m.content + 10) + tokenCountOfList rest := by
  unfold tokenCountOfList
  simp only [List.foldl_cons]
  rw [foldl_add_shift]
  omega

theorem tokenCountOfList_eq_sum (l : List SessionMessage) :
    tokenCountOfList l = (l.map (fun m => estimateTokens m.content + 10)).sum := by
  induction l with
  | nil => rfl
  | cons m rest ih => rw [tokenCountOfList_cons, ih]; simp

theorem trimAux_le (maxTokens : Nat) (l : List SessionMessage) :
    tokenCountOfList (trimAux maxTokens l) ≤ maxTokens := by
  induction l with
  | nil => simp [trimAux, tokenCountOfList]
  | cons m rest ih =>
    unfold trimAux
    by_cases h : maxTokens < tokenCountOfList (m :: rest)
    · simpa [h] using ih
    · simpa [h] using Nat.le_of_not_lt h

theorem trimAux_suffix (maxTokens : Nat) (l : List SessionMessage) :
    trimAux maxTokens l <:+ l := by
  induction l with
  | nil => simp [trimAux]
  | cons m rest ih =>
    unfold trimAux
    by_cases h : maxTokens < tokenCountOfList (m :: rest)
    · simp only [h, if_true]
      exact ih.trans (List.suffix_cons m rest)
    · simp [h]

theorem trimAux_length_le (maxTokens : Nat) (l : List SessionMessage) :
    (trimAux maxTokens l).length ≤ l.length :=
  (trimAux_suffix maxTokens l).length_le

/-- C3: `trimToTokenLimit` repeatedly evicts the oldest message while over
budget and the log is non-empty; afterwards the estimated count is within
the ceiling (so in particular the claimed disjunction holds), the surviving
log is a suffix obtained by dropping oldest messages, and the returned flag
is `true` exactly when at least one message was evicted. -/
theorem trimToTokenLimit_spec (s : SessionState) :
    (getEstimatedTokenCount (trimToTokenLimit s).2 ≤ s.maxTokens ∨
      ∃ m, s.messages = [m] ∧ s.maxTokens < estimateTokens m.content + 10) ∧
    (∃ k, (trimToTokenLimit s).2.messages = s.messages.drop k) ∧
    ((trimToTokenLimit s).1 = true ↔
      (trimToTokenLimit s).2.messages.length < s.messages.length) := by
  unfold trimToTokenLimit
  by_cases h : getEstimatedTokenCount s ≤ s.maxTokens
  · rw [if_pos h]
    exact ⟨Or.inl h, ⟨0, by simp⟩, by simp⟩
  · rw [if_neg h]
    have hle := trimAux_le s.maxTokens s.messages
    have hsuf := trimAux_suffix s.maxTokens s.messages
    refine ⟨Or.inl hle, ?_, ?_⟩
    · obtain ⟨t, ht⟩ := hsuf
      refine ⟨t.length, ?_⟩
      calc trimAux s.maxTokens s.messages
          = (t ++ trimAux s.maxTokens s.messages).drop t.length :=
            (List.drop_left t (trimAux s.maxTokens s.messages)).symm
        _ = s.messages.drop t.length := by rw [ht]
    · simp only [true_iff]
      have hlt : s.maxTokens < getEstimatedTokenCount s := Nat.lt_of_not_le h
      rcases hm : s.messages with _ | ⟨m, rest⟩
      · exfalso
        have h0 : getEstimatedTokenCount s = 0 := by
          rw [getEstimatedTokenCount, hm]; rfl
        omega
      · have hcount : s.maxTokens < tokenCountOfList (m :: rest) := by
          rw [← hm]; exact hlt
        simp only [hm, trimAux, hcount, if_true]
        have := trimAux_length_le s.maxTokens rest
        simp only [List.length_cons]
        omega

/-- Modelled from the spec: "non-Latin-script characters weighted ~2
chars/unit, other characters ~4 chars/unit, plus a fixed per-message
overhead of 10 units".  Latin script is approximated as the code points
below U+0370 (Basic Latin through the combining marks preceding Greek);
every ordinary Latin letter is below that bound and Cyrillic, Greek, CJK
and so on are above it. -/
def isLatinScriptChar (c : Char) : Bool :=
  c.toNat < 0x370

/-- Modelled from the spec: the per-message cost with non-Latin-script
characters at ~2 chars/unit and other characters at ~4 chars/unit. -/
def specEstimateTokens (text : String) : Nat :=
  let nonLatin := (text.toList.filter (fun c => ¬ isLatinScriptChar c)).length
  let latin := jsLength text - nonLatin
  (nonLatin + 1) / 2 + (latin + 3) / 4

/-- Modelled from the spec: total estimated count under the spec's stated
weighting. -/
def specEstimatedTokenCount (s : SessionState) : Nat :=
  (s.messages.map (fun m => specEstimateTokens m.content + 10)).sum

/-- A session holding one message of six Cyrillic characters. -/
def sessionCyr : SessionState :=
  { messages := [{ role := .user, content := "ЖЖЖЖЖЖ", timestamp := 0 }],
    maxTokens := 100000 }

/-- C5 counterexample: on a message of six Cyrillic (non-Latin-script)
characters the code charges ceil(6/4) + 10 = 12 units — Cyrillic is *not*
in the 2-chars-per-unit class, only the CJK range U+4E00–U+9FA5 is — while
the claim's weighting gives ceil(6/2) + 10 = 13. -/
theorem estimatedTokenCount_nonLatin_counterexample :
    getEstimatedTokenCount sessionCyr = 12 ∧
    specEstimatedTokenCount sessionCyr = 13 ∧
    getEstimatedTokenCount sessionCyr ≠ specEstimatedTokenCount sessionCyr := by
  refine ⟨by decide, by decide, by decide⟩

/-- C5 amended: `getEstimatedTokenCount` sums, over all messages, the cost
ceil(c/2) + ceil(o/4) + 10 where `c` counts the characters in the CJK range
U+4E00–U+9FA5 (not all non-Latin-script characters) and `o` counts the
remaining UTF-16 units; on an empty session it returns 0. -/
theorem getEstimatedTokenCount_formula (s : SessionState) :
    getEstimatedTokenCount s =
      (s.messages.map (fun m =>
        (chineseCount m.content + 1) / 2 +
        ((jsLength m.content - chineseCount m.content) + 3) / 4 + 10)).sum ∧
    getEstimatedTokenCount { messages := [], maxTokens := s.maxTokens } = 0 := by
  constructor
  · rw [getEstimatedTokenCount, tokenCountOfList_eq_sum]
    simp [estimateTokens]
  · rfl

/-- C7: the log is never reordered: `addMessage` appends at the newest end,
and trimming leaves a suffix of the log (eviction removes oldest messages
first), so whenever anything survives trimming the most recently added
message survives. -/
theorem session_log_no_reorder (s : SessionState) (r : Role) (c : String) (t : Nat) :
    (addMessage s r c t).messages =
      s.messages ++ [{ role := r, content := c, timestamp := t }] ∧
    (trimToTokenLimit s).2.messages <:+ s.messages ∧
    ((trimToTokenLimit s).2.messages ≠ [] →
      (trimToTokenLimit s).2.messages.getLast? = s.messages.getLast?) := by
  refine ⟨rfl, ?_, ?_⟩
  · unfold trimToTokenLimit
    by_cases h : getEstimatedTokenCount s ≤ s.maxTokens
    · simp [h]
    · simp only [h, if_false]
      exact trimAux_suffix s.maxTokens s.messages
  · intro hne
    have hsuf : (trimToTokenLimit s).2.messages <:+ s.messages := by
      unfold trimToTokenLimit
      by_cases h : getEstimatedTokenCount s ≤ s.maxTokens
      · simp [h]
      · simp only [h, if_false]
        exact trimAux_suffix s.maxTokens s.messages
    obtain ⟨pre, hpre⟩ := hsuf
    rw [← hpre, List.getLast?_append_of_ne_nil pre hne]

/-- C7 witness: the theorem instantiated at a concrete session. -/
theorem session_log_no_reorder_witness :
    (addMessage { messages := [], maxTokens := 100000 } .user "hello" 0).messages =
      [{ role := .user, content := "hello", timestamp := 0 }] ∧
    (trimToTokenLimit { messages := [], maxTokens := 100000 }).2.messages <:+
      ([] : List SessionMessage) := by
  have h := session_log_no_reorder { messages := [], maxTokens := 100000 } .user "hello" 0
  exact ⟨h.1, h.2.1⟩

/- ============== JS string primitives (kernel-reducible forms) ============ -/

/-- Prefix test on character lists (JS `String.prototype.startsWith`). -/
def charsStartWith : List Char → List Char → Bool
  | _, [] => true
  | [], _ :: _ => false
  | a :: as, b :: bs => (a = b) && charsStartWith as bs

/-- JS `s.startsWith(pattern)`. -/
def strStartsWith (s pattern : String) : Bool :=
  charsStartWith s.data pattern.data

/-- JS `String.prototype.toLowerCase` (ASCII range, which covers every
string this program lowercases). -/
def strToLower (s : String) : String :=
  ⟨s.data.map Char.toLower⟩

/-- Strip whitespace from both ends of a character list. -/
def trimChars (l : List Char) : List Char :=
  ((l.dropWhile Char.isWhitespace).reverse.dropWhile Char.isWhitespace).reverse

/-- JS `String.prototype.trim`: strip whitespace from both ends. -/
def strTrim (s : String) : String :=
  ⟨trimChars s.data⟩

/- ============== Raw input handler (raw-input.ts) ============== -/

/-- A `/`-command autocomplete entry. -/
structure CommandOption where
  name : String
  description : String
deriving DecidableEq, Repr

/-- The per-`readLine` input state: buffer text, cursor offset, menu
visibility and the highlighted menu index. -/
structure InputState where
  buffer : String
  cursor : Nat
  showMenu : Bool
  selectedIndex : Nat
deriving DecidableEq, Repr

/-- `RawInputHandler.filterCommands`: keep the commands whose lowercased
name starts with the lowercased query, and reset the highlight to the first
match when there is at least one.  Returns the new filtered list together
with the new selected index. -/
def filterCommands (commands : List CommandOption) (selectedIndex : Nat)
    (query : String) : List CommandOption × Nat :=
  let lowered := strToLower query
  let filtered := commands.filter (fun cmd => strStartsWith (strToLower cmd.name) lowered)
  (filtered, if 0 < filtered.length then 0 else selectedIndex)

/-- Modelled from the spec: "Filtering matches command names by
case-sensitive prefix against the registered command list" — the
case-sensitive variant, for comparison with the source's behaviour. -/
def filterCommandsCaseSensitive (commands : List CommandOption) (query : String) :
    List CommandOption :=
  commands.filter (fun cmd => strStartsWith cmd.name query)

/-- JS `String.prototype.indexOf(char, start)` (successful case). -/
def indexOfCharFrom (chars : List Char) (c : Char) (start : Nat) : Option Nat :=
  ((chars.drop start).findIdx? (fun x => x = c)).map (fun i => start + i)

/-- `RawInputHandler.getCommandQuery`: the filter text is whatever stands
between the leading `/` and the cursor, provided the first non-whitespace
character of the buffer is `/` and no whitespace occurs before the cursor
after that slash.  (Buffer offsets are modelled on the character list; the
buffers involved are BMP text, where JS UTF-16 offsets coincide.) -/
def getCommandQuery (st : InputState) : Option String :=
  let chars := st.buffer.toList
  match chars.findIdx? (fun c => !c.isWhitespace) with
  | none => none
  | some firstNonSpace =>
    if chars.get? firstNonSpace ≠ some '/' then none
    else
      match indexOfCharFrom chars '/' firstNonSpace with
      | none => none
      | some slashIndex =>
        if st.cursor ≤ slashIndex then some ""
        else
          let afterSlash :=
            (chars.drop (slashIndex + 1)).take (st.cursor - (slashIndex + 1))
          if afterSlash.any (fun c => c.isWhitespace) then none
          else some (String.mk afterSlash)

/-- `RawInputHandler.updateMenuState`: recompute menu visibility, the
filtered list and the highlight from the current buffer and cursor. -/
def updateMenuState (commands : List CommandOption) (st : InputState) :
    InputState × List CommandOption :=
  match getCommandQuery st with
  | none => ({ st with showMenu := false, selectedIndex := 0 }, [])
  | some query =>
    let fi := filterCommands commands st.selectedIndex query
    ({ st with showMenu := true, selectedIndex := fi.2 }, fi.1)

/-- The value with which `RawInputHandler.handleSubmit` resolves the
pending `readLine` promise: the highlighted menu command when the menu is
showing with matches, otherwise the raw buffer, with the empty buffer
collapsed to the null sentinel (the source's `input || null`).  JS array
indexing past the end yields `undefined`, which the template literal would
render as the name "undefined". -/
def submitValue (st : InputState) (filteredCommands : List CommandOption) :
    Option String :=
  if st.showMenu && 0 < filteredCommands.length then
    some ("/" ++ (match filteredCommands.get? st.selectedIndex with
      | some cmd => cmd.name
      | none => "undefined"))
  else if st.buffer = "" then none
  else some st.buffer

/-- The value with which `RawInputHandler.handleCancel` (Ctrl+C / Ctrl+D)
and `stop()` resolve the pending `readLine` promise. -/
def cancelValue : Option String := none

/-- JS `parseInt(s, 10)` on an already-trimmed string: an optional sign
followed by a non-empty digit run; anything after the digits is ignored. -/
def jsParseInt (s : String) : Option Int :=
  let signAndRest : Int × List Char :=
    match s.data with
    | '-' :: r => (-1, r)
    | '+' :: r => (1, r)
    | r => (1, r)
  let digits := signAndRest.2.takeWhile (fun c => c.isDigit)
  if digits.isEmpty then none
  else some (signAndRest.1 *
    (digits.foldl (fun acc c => acc * 10 + (c.toNat - '0'.toNat)) 0 : Nat))

/-- `RawInputHandler.handleSelection`: resolve the second-round choice of
the readline fallback, by 1-based number or by (case-insensitive) name. -/
def handleSelection (filteredCommands : List CommandOption) (input : String) :
    Option String :=
  let trimmed := strTrim input
  if trimmed = "" || trimmed = "q" || trimmed = "Q" then none
  else
    let byName :=
      match filteredCommands.find? (fun cmd => strToLower cmd.name = strToLower trimmed) with
      | some cmd => some cmd.name
      | none => none
    match jsParseInt trimmed with
    | some num =>
      if 1 ≤ num && num ≤ (filteredCommands.length : Int) then
        match filteredCommands.get? ((num - 1).toNat) with
        | some cmd => some cmd.name
        | none => none
      else byName
    | none => byName

/-- The value with which the non-TTY `useReadline` fallback resolves
`readLine`: `answer` is the first-round line; `selection` is the
second-round line, consumed only when a slash-command menu with matches was
shown.  A non-empty non-slash line resolves as itself; an empty line
resolves the null sentinel (the source's `answer || null`). -/
def readlineResolve (commands : List CommandOption) (answer selection : String) :
    Option String :=
  if strTrim answer = "/" || strStartsWith (strTrim answer) "/" then
    match getCommandQuery
      { buffer := answer, cursor := answer.toList.length,
        showMenu := false, selectedIndex := 0 } with
    | some query =>
      let filtered := (filterCommands commands 0 query).1
      if 0 < filtered.length then
        match handleSelection filtered selection with
        | some name => some ("/" ++ name)
        | none => some answer
      else some answer
    | none => some answer
  else if answer = "" then none
  else some answer

/-- A `/`-prefixed string is never empty. -/
theorem slash_append_ne_empty (n : String) : ("/" ++ n) ≠ "" := by
  intro hcon
  have hdata := congrArg String.data hcon
  rw [String.data_append] at hdata
  exact List.noConfusion hdata

/-- C4 counterexample: with the command "help" registered, the filter query
"HE" matches "help" in the code (both sides lowercased), while
case-sensitive prefix matching would reject it. -/
theorem filterCommands_case_counterexample :
    (filterCommands [{ name := "help", description := "Show help information" }] 0 "HE").1 =
      [{ name := "help", description := "Show help information" }] ∧
    filterCommandsCaseSensitive
      [{ name := "help", description := "Show help information" }] "HE" = [] ∧
    (filterCommands [{ name := "help", description := "Show help information" }] 0 "HE").1 ≠
      filterCommandsCaseSensitive
        [{ name := "help", description := "Show help information" }] "HE" := by
  refine ⟨by decide, by decide, by decide⟩

/-- C4 amended: menu filtering matches command names by case-INsensitive
prefix (both the name and the filter text are lowercased); the matches
retain registration order — the filtered list is a sublist of the
registered list, never re-sorted — and the first match is the highlighted
entry whenever there is a match. -/
theorem filterCommands_spec (commands : List CommandOption) (idx : Nat) (q : String) :
    List.Sublist (filterCommands commands idx q).1 commands ∧
    (∀ cmd, cmd ∈ (filterCommands commands idx q).1 ↔
      cmd ∈ commands ∧ strStartsWith (strToLower cmd.name) (strToLower q) = true) ∧
    (0 < (filterCommands commands idx q).1.length →
      (filterCommands commands idx q).2 = 0) := by
  refine ⟨List.filter_sublist _, ?_, ?_⟩
  · intro cmd
    simp [filterCommands, List.mem_filter]
  · intro h
    simp only [filterCommands] at h ⊢
    rw [if_pos h]

/-- C4 witness: the amended theorem applied to the registered command list
and the filter text "he". -/
theorem filterCommands_spec_witness :
    List.Sublist
      (filterCommands [{ name := "help", description := "Show help information" }] 5 "he").1
      [{ name := "help", description := "Show help information" }] ∧
    (filterCommands [{ name := "help", description := "Show help information" }] 5 "he").2 = 0 := by
  have h := filterCommands_spec
    [{ name := "help", description := "Show help information" }] 5 "he"
  exact ⟨h.1, h.2.2 (by decide)⟩

/-- C10: `readLine` never resolves with the empty string — submitting an
empty buffer with no menu shown yields the same null sentinel as Ctrl+C /
Ctrl+D cancellation, and the non-TTY readline fallback maps an empty
non-slash line to the null sentinel too. -/
theorem readLine_never_empty (st : InputState)
    (filteredCommands commands : List CommandOption) (answer selection : String) :
    submitValue st filteredCommands ≠ some "" ∧
    (st.buffer = "" → st.showMenu = false →
      submitValue st filteredCommands = cancelValue) ∧
    readlineResolve commands answer selection ≠ some "" ∧
    readlineResolve commands "" selection = cancelValue := by
  refine ⟨?_, ?_, ?_, ?_⟩
  · unfold submitValue
    split
    · intro hcon
      exact slash_append_ne_empty _ (Option.some.inj hcon)
    · split
      · exact Option.noConfusion
      · rename_i hbuf
        intro hcon
        exact hbuf (Option.some.inj hcon)
  · intro hbuf hmenu
    unfold submitValue
    rw [hmenu]
    simp [hbuf, cancelValue]
  · unfold readlineResolve
    by_cases hempty : answer = ""
    · subst hempty
      simp +decide [strTrim, trimChars, strStartsWith, charsStartWith]
    · split
      · rcases hq : getCommandQuery
          { buffer := answer, cursor := answer.toList.length,
            showMenu := false, selectedIndex := 0 } with _ | q
        · simp only [hq]
          intro hcon
          exact hempty (Option.some.inj hcon)
        · simp only [hq]
          split
          · split
            · intro hcon
              exact slash_append_ne_empty _ (Option.some.inj hcon)
            · intro hcon
              exact hempty (Option.some.inj hcon)
          · intro hcon
            exact hempty (Option.some.inj hcon)
      · exact fun hcon => hempty (Option.some.inj hcon)
  · rfl

/-- C10 witness: the theorem applied at the initial (empty-buffer) input
state and an empty fallback line. -/
theorem readLine_never_empty_witness :
    submitValue { buffer := "", cursor := 0, showMenu := false, selectedIndex := 0 } []
      = cancelValue ∧
    readlineResolve [] "" "" = cancelValue := by
  have h := readLine_never_empty
    { buffer := "", cursor := 0, showMenu := false, selectedIndex := 0 } [] [] "" ""
  exact ⟨h.2.1 rfl rfl, h.2.2.2⟩

/- ============== trim idempotence ============== -/

theorem dropWhile_head_false (p : Char → Bool) :
    ∀ (l : List Char) (x : Char) (xs : List Char),
      l.dropWhile p = x :: xs → p x = false := by
  intro l
  induction l with
  | nil => intro x xs h; exact absurd h (by simp)
  | cons a as ih =>
    intro x xs h
    by_cases hp : p a
    · rw [List.dropWhile_cons, if_pos hp] at h
      exact ih x xs h
    · rw [List.dropWhile_cons, if_neg hp] at h
      cases h
      simpa using hp

theorem dropWhile_eq_drop_aux (p : Char → Bool) :
    ∀ l : List Char, ∃ j, l.dropWhile p = l.drop j := by
  intro l
  induction l with
  | nil => exact ⟨0, rfl⟩
  | cons a as ih =>
    by_cases hp : p a
    · obtain ⟨j, hj⟩ := ih
      refine ⟨j + 1, ?_⟩
      rw [List.dropWhile_cons, if_pos hp, hj]
      rfl
    · exact ⟨0, by rw [List.dropWhile_cons, if_neg hp, List.drop_zero]⟩

theorem head?_take_pos (a : List Char) (m : Nat) (hm : 0 < m) :
    (a.take m).head? = a.head? := by
  cases a <;> cases m <;> simp_all

theorem trimChars_idem (l : List Char) : trimChars (trimChars l) = trimChars l := by
  have hdrop : (trimChars l).dropWhile Char.isWhitespace = trimChars l := by
    rcases hb : trimChars l with _ | ⟨x, xs⟩
    · rfl
    · have hx : Char.isWhitespace x = false := by
        obtain ⟨j, hj⟩ := dropWhile_eq_drop_aux Char.isWhitespace
          (l.dropWhile Char.isWhitespace).reverse
        have hbtake : trimChars l =
            (l.dropWhile Char.isWhitespace).take
              ((l.dropWhile Char.isWhitespace).length - j) := by
          rw [trimChars, hj, ← List.rdrop_eq_reverse_drop_reverse]
          rfl
        have hpos : 0 < (l.dropWhile Char.isWhitespace).length - j := by
          rcases Nat.eq_zero_or_pos ((l.dropWhile Char.isWhitespace).length - j) with h0 | h
          · rw [h0] at hbtake
            rw [hb] at hbtake
            exact absurd hbtake (by simp)
          · exact h
        have hhead := head?_take_pos (l.dropWhile Char.isWhitespace) _ hpos
        rw [← hbtake, hb] at hhead
        rcases hA : l.dropWhile Char.isWhitespace with _ | ⟨y, ys⟩
        · rw [hA] at hhead
          exact absurd hhead (by simp)
        · rw [hA] at hhead
          have hxy : x = y := by simpa using hhead
          rw [hxy]
          exact dropWhile_head_false Char.isWhitespace l y ys hA
      rw [List.dropWhile_cons, if_neg (by simp [hx])]
  calc trimChars (trimChars l)
      = (((trimChars l).dropWhile Char.isWhitespace).reverse.dropWhile
          Char.isWhitespace).reverse := rfl
    _ = ((trimChars l).reverse.dropWhile Char.isWhitespace).reverse := by rw [hdrop]
    _ = trimChars l := by
        conv_lhs => rw [trimChars, List.reverse_reverse, List.dropWhile_idempotent]
        rw [trimChars]

theorem strTrim_idem (s : String) : strTrim (strTrim s) = strTrim s := by
  unfold strTrim
  exact congrArg String.mk (trimChars_idem s.data)

/- ===================== REPL (cli/repl.ts) ===================== -/

/-- JS `String.prototype.toUpperCase` (ASCII range, covering the role
names this program uppercases). -/
def strToUpper (s : String) : String :=
  ⟨s.data.map Char.toUpper⟩

/-- JS `String.prototype.padEnd(n)` with spaces. -/
def padEndStr (s : String) (n : Nat) : String :=
  ⟨s.data ++ List.replicate (n - s.data.length) ' '⟩

/-- JS `trimmed.split(/\s+/)[0]` for the already-trimmed dispatch input:
the first whitespace-delimited token (empty on the empty string, matching
the JS split's single empty piece there). -/
def firstToken (s : String) : String :=
  ⟨s.data.takeWhile (fun c => !c.isWhitespace)⟩

/-- `handleCommand`'s name computation:
`parts[0]?.toLowerCase().replace(/^\//, '')` — lowercase the first token
and strip one leading slash. -/
def commandNameOf (trimmed : String) : String :=
  let tok := strToLower (firstToken trimmed)
  if strStartsWith tok "/" then ⟨tok.data.tail⟩ else tok

/-- The keys of the REPL's built-in command map, in registration order. -/
def commandTable : List String :=
  ["help", "clear", "exit", "quit", "config", "tools", "history"]

/-- The behaviour of the bound AI provider during one turn: `chat` either
returns the response content or throws (the `Except.error` message);
`chatStream` yields the chunks written before either clean exhaustion
(`none`) or a thrown error (`some message`). -/
structure ProviderBehavior where
  chat : List (String × String) → Except String String
  chatStream : List (String × String) → List String × Option String

/-- The REPL's bound context: session, streaming preference, provider, and
the opaque texts the `config`/`tools` commands print. -/
structure REPLCtx where
  session : SessionState
  streamOutput : Bool
  provider : ProviderBehavior
  configText : String
  toolEntries : List (String × String)

/-- The fixed output of `/help`. -/
def helpLines : List String :=
  ["Available Commands:",
   "  /help     - Show this help message",
   "  /clear    - Clear conversation history",
   "  /exit     - Exit the REPL",
   "  /quit     - Exit the REPL (same as /exit)",
   "  /config   - Show current configuration",
   "  /tools    - List available tools",
   "  /history  - Show conversation history"]

/-- The output of `/history` (locale time rendering abstracted as the
timestamp's decimal form). -/
def historyLines (s : SessionState) : List String :=
  if s.messages.length = 0 then ["No conversation history"]
  else
    ("Conversation History (" ++ toString s.messages.length ++ " messages):") ::
      s.messages.map (fun m =>
        "  [" ++ toString m.timestamp ++ "] " ++
          padEndStr (strToUpper m.role.toName) 10 ++ ": " ++ ⟨m.content.data.take 100⟩)

/-- `REPL.handleCommand`: trim, take the first token, lowercase it, strip
one leading slash and look it up in the command map; unknown names emit
two diagnostic lines and never signal exit.  Returns (shouldExit, new
session state, output lines). -/
def handleCommand (ctx : REPLCtx) (input : String) :
    Bool × SessionState × List String :=
  let trimmed := strTrim input
  let name := commandNameOf trimmed
  if name = "help" then (false, ctx.session, helpLines)
  else if name = "clear" then (false, clearSession ctx.session, ["Session cleared"])
  else if name = "exit" ∨ name = "quit" then (true, ctx.session, ["Goodbye!"])
  else if name = "config" then
    (false, ctx.session, ["Current Configuration:", ctx.configText])
  else if name = "tools" then
    (false, ctx.session,
      ("Available Tools (" ++ toString ctx.toolEntries.length ++ "):") ::
        ctx.toolEntries.map (fun t => "  - " ++ t.1 ++ ": " ++ t.2))
  else if name = "history" then (false, ctx.session, historyLines ctx.session)
  else (false, ctx.session,
    ["Unknown command: " ++ firstToken trimmed,
     "Type /help for available commands"])

/-- The provider round-trip inside `processUserMessage`'s `try` block: the
chunks/response written before any failure, and the response text or the
thrown error. -/
def providerTurn (p : ProviderBehavior) (streamOutput : Bool)
    (msgs : List (String × String)) : List String × Except String String :=
  if streamOutput then
    let res := p.chatStream msgs
    (res.1, match res.2 with
      | none => .ok (String.join res.1)
      | some e => .error e)
  else
    match p.chat msgs with
    | .ok content => ([content], .ok content)
    | .error e => ([], .error e)

/-- `REPL.processUserMessage`: append the user message, run the trim step
(reporting its notice), send `getMessagesForAI` to the provider, then
either store and show the response or catch the thrown provider error and
emit the single diagnostic line `Error: <message>`.  The trace merges
`output` lines, the trim notice and streamed stdout chunks in order.
`now`/`later` are the two `new Date()` timestamps of the turn. -/
def processUserMessage (ctx : REPLCtx) (content : String) (now later : Nat) :
    SessionState × List String :=
  let s1 := addMessage ctx.session .user content now
  let trimRes := trimToTokenLimit s1
  let notices : List String :=
    if trimRes.1 then ["Note: Conversation history was trimmed to fit token limit"]
    else []
  let turn := providerTurn ctx.provider ctx.streamOutput (getMessagesForAI trimRes.2)
  match turn.2 with
  | .ok response => (addMessage trimRes.2 .assistant response later, notices ++ turn.1)
  | .error e => (trimRes.2, notices ++ turn.1 ++ ["Error: " ++ e])

/-- `REPL.processInput`: empty input is a silent no-op, `/`-prefixed input
is dispatched as a command, anything else is a provider turn.  The outer
`Except` layer carries an uncaught thrown exception; every branch returns
normally (`Except.ok`).  The `Bool` is `handleCommand`'s exit signal
(always `false` for non-command turns). -/
def processInput (ctx : REPLCtx) (input : String) (now later : Nat) :
    Except String (Bool × SessionState × List String) :=
  let trimmed := strTrim input
  if trimmed = "" then .ok (false, ctx.session, [])
  else if strStartsWith trimmed "/" then .ok (handleCommand ctx trimmed)
  else
    let res := processUserMessage ctx trimmed now later
    .ok (false, res.1, res.2)

/-- C8: a provider error in a non-command turn is caught inside the turn
handler: `processInput` returns normally (the error does not propagate),
signals no exit, leaves the session at the user-message-appended, trimmed
state with no assistant message added, and the turn's trace ends with the
single diagnostic line `Error: <message>`. -/
theorem provider_error_caught (ctx : REPLCtx) (input : String) (e : String)
    (now later : Nat)
    (hne : strTrim input ≠ "")
    (hnc : strStartsWith (strTrim input) "/" = false)
    (herr : (providerTurn ctx.provider ctx.streamOutput
      (getMessagesForAI (trimToTokenLimit
        (addMessage ctx.session .user (strTrim input) now)).2)).2 = .error e) :
    ∃ outs, processInput ctx input now later =
      .ok (false,
        (trimToTokenLimit (addMessage ctx.session .user (strTrim input) now)).2,
        outs ++ ["Error: " ++ e]) := by
  unfold processInput processUserMessage
  rw [if_neg hne]
  simp only [hnc, Bool.false_eq_true, if_false]
  rw [herr]
  refine ⟨(if (trimToTokenLimit (addMessage ctx.session .user (strTrim input) now)).1 = true
      then ["Note: Conversation history was trimmed to fit token limit"] else []) ++
    (providerTurn ctx.provider ctx.streamOutput
      (getMessagesForAI (trimToTokenLimit
        (addMessage ctx.session .user (strTrim input) now)).2)).1, ?_⟩
  simp [List.append_assoc]

/-- A provider that always throws "boom" on the blocking call. -/
def boomProvider : ProviderBehavior :=
  { chat := fun _ => .error "boom",
    chatStream := fun _ => ([], some "boom") }

/-- A REPL context bound to an empty session and the always-failing
provider, in non-streaming mode. -/
def boomCtx : REPLCtx :=
  { session := { messages := [], maxTokens := 100000 },
    streamOutput := false,
    provider := boomProvider,
    configText := "{}",
    toolEntries := [] }

/-- C8 witness: the theorem applied to the failing provider on input
"hi". -/
theorem provider_error_caught_witness :
    ∃ outs, processInput boomCtx "hi" 0 1 =
      .ok (false,
        (trimToTokenLimit (addMessage boomCtx.session .user (strTrim "hi") 0)).2,
        outs ++ ["Error: boom"]) :=
  provider_error_caught boomCtx "hi" "boom" 0 1 (by decide) (by decide) rfl

/-- C9: a `/`-prefixed input whose dispatch name (first whitespace token,
lowercased, one leading slash stripped) is not in the command table
produces only the two diagnostic lines, returns normally (not an error),
signals no exit, and leaves the session state unmodified. -/
theorem unknown_command_no_effect (ctx : REPLCtx) (input : String)
    (now later : Nat)
    (hslash : strStartsWith (strTrim input) "/" = true)
    (hunknown : commandNameOf (strTrim input) ∉ commandTable) :
    processInput ctx input now later =
      .ok (false, ctx.session,
        ["Unknown command: " ++ firstToken (strTrim input),
         "Type /help for available commands"]) := by
  have hne : strTrim input ≠ "" := by
    intro h
    rw [h] at hslash
    exact absurd hslash (by decide)
  unfold processInput
  rw [if_neg hne]
  simp only [hslash, if_true]
  unfold handleCommand
  rw [strTrim_idem]
  simp only [commandTable, List.mem_cons, List.not_mem_nil, or_false] at hunknown
  push_neg at hunknown
  obtain ⟨h1, h2, h3, h4, h5, h6, h7⟩ := hunknown
  rw [if_neg h1, if_neg h2, if_neg (by simp [h3, h4]), if_neg h5, if_neg h6, if_neg h7]

/-- C9 witness: the theorem applied to the input "/bogus". -/
theorem unknown_command_no_effect_witness :
    processInput boomCtx "/bogus" 0 1 =
      .ok (false, boomCtx.session,
        ["Unknown command: " ++ firstToken (strTrim "/bogus"),
         "Type /help for available commands"]) :=
  unknown_command_no_effect boomCtx "/bogus" 0 1 (by decide) (by decide)

/- ===================== File tools (tools/file.ts) ===================== -/

/-- Split a character list at slashes. -/
def splitSlashAux : List Char → List Char → List (List Char)
  | [], acc => [acc.reverse]
  | c :: rest, acc =>
    if c = '/' then acc.reverse :: splitSlashAux rest []
    else splitSlashAux rest (c :: acc)

/-- The non-empty slash-separated components of a path string. -/
def splitPath (s : String) : List String :=
  ((splitSlashAux s.data []).map (fun l => (⟨l⟩ : String))).filter (fun c => c ≠ "")

/-- One step of POSIX path normalization: `.` is dropped, `..` pops the
last component (staying at the root when there is none), anything else is
pushed. -/
def normStep (acc : List String) (c : String) : List String :=
  if c = "." then acc
  else if c = ".." then acc.dropLast
  else acc ++ [c]

/-- Normalize a component sequence of an absolute path. -/
def normalizeComponents (l : List String) : List String :=
  l.foldl normStep []

/-- Node `path.resolve(p)` against the (normalized, absolute) process
current working directory `cwd`, as absolute path components. -/
def resolvePath (cwd : List String) (p : String) : List String :=
  if strStartsWith p "/" then normalizeComponents (splitPath p)
  else normalizeComponents (cwd ++ splitPath p)

/-- Length of the common component prefix of two absolute paths. -/
def commonLen : List String → List String → Nat
  | a :: as, b :: bs => if a = b then commonLen as bs + 1 else 0
  | _, _ => 0

/-- Join components with slashes. -/
def joinComponents : List String → String
  | [] => ""
  | [c] => c
  | c :: rest => c ++ "/" ++ joinComponents rest

/-- Node `path.relative(base, target)` on two absolute component paths, as
the slash-joined string (`..` segments for what remains of `base`, then
the remainder of `target`). -/
def relativePathStr (base target : List String) : String :=
  let k := commonLen base target
  joinComponents (List.replicate (base.length - k) ".." ++ target.drop k)

/-- The containment test of `resolveSafePath`:
`relativePath.startsWith('..') || isAbsolute(relativePath)` (POSIX
`isAbsolute` = leading slash), after resolving both the workspace and the
path against the process current working directory. -/
def escapesWorkspace (cwd : List String) (workspace filePath : String) : Bool :=
  let absoluteWorkspace := resolvePath cwd workspace
  let absolutePath := resolvePath cwd filePath
  let relativePath := relativePathStr absoluteWorkspace absolutePath
  strStartsWith relativePath ".." || strStartsWith relativePath "/"

/-- `resolveSafePath(workspace, filePath)`: resolve the path from the
process current directory (standard Node behaviour, per the source
comment), then throw when the path relative to the resolved workspace
escapes it. -/
def resolveSafePath (cwd : List String) (workspace filePath : String) :
    Except String (List String) :=
  let absoluteWorkspace := resolvePath cwd workspace
  let absolutePath := resolvePath cwd filePath
  let relativePath := relativePathStr absoluteWorkspace absolutePath
  if strStartsWith relativePath ".." || strStartsWith relativePath "/" then
    .error "Path is outside workspace"
  else .ok absolutePath

/-- A filesystem node: a file with contents, or a directory. -/
inductive FsNode where
  | file (content : String)
  | dir
deriving DecidableEq, Repr

/-- The filesystem, as a finite map from absolute component paths to
nodes. -/
structure FsState where
  entries : List (List String × FsNode)
deriving DecidableEq, Repr

/-- Look a path up in the filesystem. -/
def FsState.lookup (fs : FsState) (p : List String) : Option FsNode :=
  (fs.entries.find? (fun e => e.1 == p)).map (fun e => e.2)

/-- `fs.access`-style existence test. -/
def FsState.hasEntry (fs : FsState) (p : List String) : Bool :=
  (fs.lookup p).isSome

/-- `fs.readFile`: the error strings carry the Node error codes the
tools' catch blocks match on. -/
def fsReadFile (fs : FsState) (p : List String) : Except String String :=
  match fs.lookup p with
  | some (.file content) => .ok content
  | some .dir => .error "EISDIR: illegal operation on a directory, read"
  | none => .error "ENOENT: no such file or directory, open"

/-- Create or overwrite a file. -/
def fsSetFile (fs : FsState) (p : List String) (content : String) : FsState :=
  ⟨(p, FsNode.file content) :: fs.entries.filter (fun e => !(e.1 == p))⟩

/-- The non-empty initial segments of a component path. -/
def initSegments : List String → List (List String)
  | [] => []
  | c :: rest => [c] :: (initSegments rest).map (fun q => c :: q)

/-- `fs.mkdir` with `recursive: true`: create the directory and every
missing ancestor. -/
def fsMkdirAll (fs : FsState) (p : List String) : FsState :=
  (initSegments p).foldl
    (fun acc q => if acc.hasEntry q then acc else ⟨acc.entries ++ [(q, FsNode.dir)]⟩)
    fs

/-- `fs.mkdir`: non-recursive creation fails on an existing entry or a
missing parent, with the corresponding Node error codes. -/
def fsMkdir (fs : FsState) (p : List String) (recursive : Bool) :
    Except String FsState :=
  if recursive then .ok (fsMkdirAll fs p)
  else if fs.hasEntry p then .error "EEXIST: file already exists, mkdir"
  else if p.length ≤ 1 || fs.hasEntry p.dropLast then
    .ok ⟨fs.entries ++ [(p, FsNode.dir)]⟩
  else .error "ENOENT: no such file or directory, mkdir"

/-- `fs.readdir`: names of the direct children of a directory. -/
def fsChildren (fs : FsState) (p : List String) : List String :=
  fs.entries.filterMap (fun e =>
    if (e.1.length == p.length + 1) && (e.1.take p.length == p) then e.1.getLast?
    else none)

/-- `fs.rm` with `force: true`: remove the entry, and everything beneath
it when `recursive`. -/
def fsRm (fs : FsState) (p : List String) (recursive : Bool) : FsState :=
  if recursive then ⟨fs.entries.filter (fun e => !(e.1.take p.length == p))⟩
  else ⟨fs.entries.filter (fun e => !(e.1 == p))⟩

/-- The `fast-glob` listing, abstracted (the glob library is an external
dependency; the pattern is the schema default `*`): non-recursive mode
lists the direct children, recursive mode every entry strictly beneath
the directory, as slash-joined relative names. -/
def fgList (fs : FsState) (p : List String) (recursive : Bool) : List String :=
  if recursive then
    fs.entries.filterMap (fun e =>
      if (p.length < e.1.length) && (e.1.take p.length == p) then
        some (joinComponents (e.1.drop p.length))
      else none)
  else fsChildren fs p

/-- `fs.stat` data for listed entries: (name, size, isDirectory), with the
size of a file its UTF-8 byte length and a directory's platform-dependent
size abstracted as 0; a failing stat also reports (0, false). -/
def statEntries (fs : FsState) (base : List String) (files : List String) :
    List (String × Nat × Bool) :=
  files.map (fun f =>
    match fs.lookup (base ++ splitPath f) with
    | some (.file c) => (f, c.utf8ByteSize, false)
    | some .dir => (f, 0, true)
    | none => (f, 0, false))

/-- The data payloads of successful (and directory-listing) tool
results. -/
inductive ToolData where
  | readData (content : String) (path : String)
  | writeData (path : String) (bytesWritten : Nat)
  | createData (path : String) (created : Bool)
  | listData (files : List String) (stats : Option (List (String × Nat × Bool)))
      (count : Nat)
  | deleteData (path : String) (deleted : Bool)
deriving DecidableEq, Repr

/-- `ToolResult`. -/
structure ToolResult where
  success : Bool
  data : Option ToolData := none
  error : Option String := none
deriving DecidableEq, Repr

/-- Raw (unvalidated) parameter objects handed to the file tools; `none`
models an absent JSON field. -/
structure RawFileParams where
  path : Option String := none
  content : Option String := none
  encoding : Option String := none
  recursive : Option Bool := none
  pattern : Option String := none
  includeStats : Option Bool := none
deriving DecidableEq, Repr

/-- The zod encoding enum of the read/write tools. -/
def validEncoding (e : String) : Bool :=
  e = "utf-8" || e = "base64" || e = "utf-16le"

structure ReadParams where
  path : String
  encoding : String
deriving DecidableEq, Repr

structure WriteParams where
  path : String
  content : String
  encoding : String
deriving DecidableEq, Repr

structure CreateParams where
  path : String
  recursive : Bool
deriving DecidableEq, Repr

structure ListParams where
  path : String
  pattern : String
  recursive : Bool
  includeStats : Bool
deriving DecidableEq, Repr

structure DeleteParams where
  path : String
  recursive : Bool
deriving DecidableEq, Repr

/-- `read_file.parameters.parse`: `path` required, `encoding` an enum
defaulting to "utf-8"; a ZodError is thrown (the `Except.error`) on
failure. -/
def parseReadParams (p : RawFileParams) : Except String ReadParams :=
  match p.path with
  | none => .error "ZodError: path Required"
  | some path =>
    match p.encoding with
    | none => .ok { path := path, encoding := "utf-8" }
    | some enc =>
      if validEncoding enc then .ok { path := path, encoding := enc }
      else .error "ZodError: invalid enum value for encoding"

/-- `write_file.parameters.parse`. -/
def parseWriteParams (p : RawFileParams) : Except String WriteParams :=
  match p.path with
  | none => .error "ZodError: path Required"
  | some path =>
    match p.content with
    | none => .error "ZodError: content Required"
    | some content =>
      match p.encoding with
      | none => .ok { path := path, content := content, encoding := "utf-8" }
      | some enc =>
        if validEncoding enc then .ok { path := path, content := content, encoding := enc }
        else .error "ZodError: invalid enum value for encoding"

/-- `create_dir.parameters.parse`: `recursive` defaults to `true`. -/
def parseCreateParams (p : RawFileParams) : Except String CreateParams :=
  match p.path with
  | none => .error "ZodError: path Required"
  | some path => .ok { path := path, recursive := p.recursive.getD true }

/-- `list_files.parameters.parse`: defaults `*`, `false`, `false`. -/
def parseListParams (p : RawFileParams) : Except String ListParams :=
  match p.path with
  | none => .error "ZodError: path Required"
  | some path =>
    .ok { path := path, pattern := p.pattern.getD "*",
          recursive := p.recursive.getD false,
          includeStats := p.includeStats.getD false }

/-- `delete_file.parameters.parse`: `recursive` defaults to `false`. -/
def parseDeleteParams (p : RawFileParams) : Except String DeleteParams :=
  match p.path with
  | none => .error "ZodError: path Required"
  | some path => .ok { path := path, recursive := p.recursive.getD false }

/-- The `try` body of `read_file.execute`: parse, containment check, read. -/
def read_file_body (cwd : List String) (workspace : String)
    (params : RawFileParams) (fs : FsState) : Except String (ToolResult × FsState) :=
  match parseReadParams params with
  | .error e => .error e
  | .ok pe =>
    match resolveSafePath cwd workspace pe.path with
    | .error e => .error e
    | .ok safePath =>
      match fsReadFile fs safePath with
      | .error e => .error e
      | .ok content =>
        .ok ({ success := true, data := some (.readData content pe.path) }, fs)

/-- `read_file.execute`: the body runs inside `try`; the catch block maps
containment errors first, then ENOENT, then everything else, to a failing
`ToolResult` — a validation failure is normalized here too.  The encoding
transform of the external `fs.readFile` is abstracted (the stored content
is returned for every valid encoding).  Errors never escape: the outer
`Except.error` (a thrown exception) is never produced. -/
def read_file_execute (cwd : List String) (workspace : String)
    (params : RawFileParams) (fs : FsState) : Except String (ToolResult × FsState) :=
  match read_file_body cwd workspace params fs with
  | .ok r => .ok r
  | .error msg =>
    if strContains msg "outside workspace" then
      .ok ({ success := false, error := some msg }, fs)
    else if strContains msg "ENOENT" then
      .ok ({ success := false,
             error := some ("File not found: " ++
               (match params.path with | some p => p | none => "undefined")) }, fs)
    else .ok ({ success := false, error := some msg }, fs)

/-- The `try` body of `write_file.execute`: parse, containment check,
recursive parent mkdir, write.  `bytesWritten` is the UTF-8 byte length
(the `Buffer` byte length for the default encoding; other encodings'
byte lengths are abstracted). -/
def write_file_body (cwd : List String) (workspace : String)
    (params : RawFileParams) (fs : FsState) : Except String (ToolResult × FsState) :=
  match parseWriteParams params with
  | .error e => .error e
  | .ok pe =>
    match resolveSafePath cwd workspace pe.path with
    | .error e => .error e
    | .ok safePath =>
      let fs1 := fsMkdirAll fs safePath.dropLast
      let fs2 := fsSetFile fs1 safePath pe.content
      .ok ({ success := true,
             data := some (.writeData pe.path pe.content.utf8ByteSize) }, fs2)

/-- `write_file.execute`: catch-all normalization of every thrown error
(all throwing points precede the first filesystem mutation, so the
filesystem is unchanged on failure). -/
def write_file_execute (cwd : List String) (workspace : String)
    (params : RawFileParams) (fs : FsState) : Except String (ToolResult × FsState) :=
  match write_file_body cwd workspace params fs with
  | .ok r => .ok r
  | .error msg => .ok ({ success := false, error := some msg }, fs)

/-- The `try` body of `create_dir.execute`. -/
def create_dir_body (cwd : List String) (workspace : String)
    (params : RawFileParams) (fs : FsState) : Except String (ToolResult × FsState) :=
  match parseCreateParams params with
  | .error e => .error e
  | .ok pe =>
    match resolveSafePath cwd workspace pe.path with
    | .error e => .error e
    | .ok safePath =>
      match fsMkdir fs safePath pe.recursive with
      | .error e => .error e
      | .ok fs1 => .ok ({ success := true, data := some (.createData pe.path true) }, fs1)

/-- `create_dir.execute`: catch-all normalization. -/
def create_dir_execute (cwd : List String) (workspace : String)
    (params : RawFileParams) (fs : FsState) : Except String (ToolResult × FsState) :=
  match create_dir_body cwd workspace params fs with
  | .ok r => .ok r
  | .error msg => .ok ({ success := false, error := some msg }, fs)

/-- The `try` body of `list_files.execute`: parse, containment check, an
inner existence check that returns early with "Directory not found", then
the glob listing with optional stats. -/
def list_files_body (cwd : List String) (workspace : String)
    (params : RawFileParams) (fs : FsState) : Except String (ToolResult × FsState) :=
  match parseListParams params with
  | .error e => .error e
  | .ok pe =>
    match resolveSafePath cwd workspace pe.path with
    | .error e => .error e
    | .ok safePath =>
      if !fs.hasEntry safePath then
        .ok ({ success := false, error := some ("Directory not found: " ++ pe.path) }, fs)
      else
        let files := fgList fs safePath pe.recursive
        let stats := if pe.includeStats then some (statEntries fs safePath files) else none
        .ok ({ success := true, data := some (.listData files stats files.length) }, fs)

/-- `list_files.execute`: catch-all normalization. -/
def list_files_execute (cwd : List String) (workspace : String)
    (params : RawFileParams) (fs : FsState) : Except String (ToolResult × FsState) :=
  match list_files_body cwd workspace params fs with
  | .ok r => .ok r
  | .error msg => .ok ({ success := false, error := some msg }, fs)

/-- The `try` body of `delete_file.execute` (everything after the
parameter parse): containment check, existence check, the
non-recursive-on-non-empty-directory guard, then `fs.rm` (recursive for
directories even when `recursive` is false, matching the source's
Windows note). -/
def delete_file_body (cwd : List String) (workspace : String)
    (pe : DeleteParams) (fs : FsState) : Except String (ToolResult × FsState) :=
  match resolveSafePath cwd workspace pe.path with
  | .error e => .error e
  | .ok safePath =>
    if !fs.hasEntry safePath then
      .ok ({ success := false,
             error := some ("File or directory not found: " ++ pe.path) }, fs)
    else
      let isDirectory := fs.lookup safePath == some FsNode.dir
      if isDirectory && !pe.recursive && 0 < (fsChildren fs safePath).length then
        .ok ({ success := false,
               error := some "Directory not empty (use recursive=true to delete)" }, fs)
      else
        let deleteRecursive := if isDirectory then true else pe.recursive
        .ok ({ success := true, data := some (.deleteData pe.path true) },
             fsRm fs safePath deleteRecursive)

/-- `delete_file.execute`: the parameter parse happens OUTSIDE the `try`
block in the source, so a validation failure is thrown to the caller (the
outer `Except.error`); only errors from the body are caught and
normalized. -/
def delete_file_execute (cwd : List String) (workspace : String)
    (params : RawFileParams) (fs : FsState) : Except String (ToolResult × FsState) :=
  match parseDeleteParams params with
  | .error e => .error e
  | .ok pe =>
    match delete_file_body cwd workspace pe fs with
    | .ok r => .ok r
    | .error msg =>
      if strContains msg "ENOTEMPTY" || strContains msg "not empty" then
        .ok ({ success := false,
               error := some "Directory not empty (use recursive=true to delete)" }, fs)
      else if strContains msg "EISDIR" && !pe.recursive then
        .ok ({ success := false,
               error := some "Directory not empty (use recursive=true to delete)" }, fs)
      else .ok ({ success := false, error := some msg }, fs)

/-- When the containment test fires, `resolveSafePath` throws. -/
theorem resolveSafePath_escape (cwd : List String) (workspace filePath : String)
    (h : escapesWorkspace cwd workspace filePath = true) :
    resolveSafePath cwd workspace filePath = .error "Path is outside workspace" := by
  simp only [escapesWorkspace] at h
  simp only [resolveSafePath]
  rw [if_pos h]

theorem read_file_containment (cwd : List String) (workspace path : String)
    (fs : FsState) (hesc : escapesWorkspace cwd workspace path = true) :
    read_file_execute cwd workspace { path := some path } fs =
      .ok ({ success := false, error := some "Path is outside workspace" }, fs) := by
  have hsafe := resolveSafePath_escape cwd workspace path hesc
  simp +decide [read_file_execute, read_file_body, parseReadParams, hsafe]

theorem write_file_containment (cwd : List String) (workspace path content : String)
    (fs : FsState) (hesc : escapesWorkspace cwd workspace path = true) :
    write_file_execute cwd workspace { path := some path, content := some content } fs =
      .ok ({ success := false, error := some "Path is outside workspace" }, fs) := by
  have hsafe := resolveSafePath_escape cwd workspace path hesc
  simp [write_file_execute, write_file_body, parseWriteParams, hsafe]

theorem create_dir_containment (cwd : List String) (workspace path : String)
    (rcv : Option Bool) (fs : FsState)
    (hesc : escapesWorkspace cwd workspace path = true) :
    create_dir_execute cwd workspace { path := some path, recursive := rcv } fs =
      .ok ({ success := false, error := some "Path is outside workspace" }, fs) := by
  have hsafe := resolveSafePath_escape cwd workspace path hesc
  simp [create_dir_execute, create_dir_body, parseCreateParams, hsafe]

theorem list_files_containment (cwd : List String) (workspace path : String)
    (rcv st : Option Bool) (pat : Option String) (fs : FsState)
    (hesc : escapesWorkspace cwd workspace path = true) :
    list_files_execute cwd workspace
        { path := some path, recursive := rcv, pattern := pat, includeStats := st } fs =
      .ok ({ success := false, error := some "Path is outside workspace" }, fs) := by
  have hsafe := resolveSafePath_escape cwd workspace path hesc
  simp [list_files_execute, list_files_body, parseListParams, hsafe]

theorem delete_file_containment (cwd : List String) (workspace path : String)
    (rcv : Option Bool) (fs : FsState)
    (hesc : escapesWorkspace cwd workspace path = true) :
    delete_file_execute cwd workspace { path := some path, recursive := rcv } fs =
      .ok ({ success := false, error := some "Path is outside workspace" }, fs) := by
  have hsafe := resolveSafePath_escape cwd workspace path hesc
  simp +decide [delete_file_execute, delete_file_body, parseDeleteParams, hsafe]

/-- C1 amended: for each of the five file tools, a path argument whose
resolution — performed against the process current working directory, not
the workspace root — lands outside the resolved workspace root makes
`execute` return a failing `ToolResult` carrying the containment error
"Path is outside workspace", with the filesystem untouched; and with the
current working directory AT the workspace root `/ws`, the call with path
`../../etc/passwd` fails with the containment error for every filesystem
state (in particular regardless of whether the target exists). -/
theorem tools_workspace_containment (cwd : List String)
    (workspace path content : String) (rcv st : Option Bool) (pat : Option String)
    (fs : FsState) (hesc : escapesWorkspace cwd workspace path = true) :
    read_file_execute cwd workspace { path := some path } fs =
      .ok ({ success := false, error := some "Path is outside workspace" }, fs) ∧
    write_file_execute cwd workspace { path := some path, content := some content } fs =
      .ok ({ success := false, error := some "Path is outside workspace" }, fs) ∧
    create_dir_execute cwd workspace { path := some path, recursive := rcv } fs =
      .ok ({ success := false, error := some "Path is outside workspace" }, fs) ∧
    list_files_execute cwd workspace
        { path := some path, recursive := rcv, pattern := pat, includeStats := st } fs =
      .ok ({ success := false, error := some "Path is outside workspace" }, fs) ∧
    delete_file_execute cwd workspace { path := some path, recursive := rcv } fs =
      .ok ({ success := false, error := some "Path is outside workspace" }, fs) ∧
    (∀ fs2 : FsState,
      read_file_execute ["ws"] "/ws" { path := some "../../etc/passwd" } fs2 =
        .ok ({ success := false, error := some "Path is outside workspace" }, fs2)) :=
  ⟨read_file_containment cwd workspace path fs hesc,
   write_file_containment cwd workspace path content fs hesc,
   create_dir_containment cwd workspace path rcv fs hesc,
   list_files_containment cwd workspace path rcv st pat fs hesc,
   delete_file_containment cwd workspace path rcv fs hesc,
   fun fs2 => read_file_containment ["ws"] "/ws" "../../etc/passwd" fs2 (by decide)⟩

/-- C1 witness: a `..`-traversal escaping the workspace when the current
directory is the workspace root. -/
theorem tools_workspace_containment_witness :
    read_file_execute ["ws"] "/ws" { path := some "../../etc/passwd" }
        (⟨[]⟩ : FsState) =
      .ok ({ success := false, error := some "Path is outside workspace" },
        (⟨[]⟩ : FsState)) :=
  (tools_workspace_containment ["ws"] "/ws" "../../etc/passwd" "x" none none none
    (⟨[]⟩ : FsState) (by decide)).1

/-- A workspace `/ws` that contains `/ws/etc/passwd`. -/
def fsWithWsEtcPasswd : FsState :=
  ⟨[(["ws"], .dir), (["ws", "a"], .dir), (["ws", "a", "b"], .dir),
    (["ws", "etc"], .dir), (["ws", "etc", "passwd"], .file "inside-workspace")]⟩

/-- C1 counterexample: paths resolve against the process current working
directory, not the workspace root.  With workspace `/ws` and the process
running in `/ws/a/b`, the path `../../etc/passwd` resolves to
`/ws/etc/passwd`, INSIDE the workspace: `read_file` succeeds when that
file exists, and reports "File not found" (not a containment error) when
it does not — refuting "always fails with a containment error". -/
theorem path_escape_cwd_counterexample :
    read_file_execute ["ws", "a", "b"] "/ws" { path := some "../../etc/passwd" }
        fsWithWsEtcPasswd =
      .ok ({ success := true,
             data := some (.readData "inside-workspace" "../../etc/passwd") },
           fsWithWsEtcPasswd) ∧
    read_file_execute ["ws", "a", "b"] "/ws" { path := some "../../etc/passwd" }
        (⟨[]⟩ : FsState) =
      .ok ({ success := false, error := some "File not found: ../../etc/passwd" },
           (⟨[]⟩ : FsState)) := by
  refine ⟨rfl, rfl⟩

/-- C2 (code bug): `delete_file` parses its parameters OUTSIDE its `try`
block, so a parameter-validation failure (here: the required `path` field
missing) is thrown past `execute` — it never yields a `ToolResult` —
while `read_file` (whose parse is inside `try`, like the other tools)
normalizes the same failure into `success = false` with an error
string. -/
theorem delete_file_throws_on_invalid_params :
    delete_file_execute ["ws"] "/ws" {} (⟨[]⟩ : FsState) =
      .error "ZodError: path Required" ∧
    (∀ r, delete_file_execute ["ws"] "/ws" {} (⟨[]⟩ : FsState) ≠ .ok r) ∧
    read_file_execute ["ws"] "/ws" {} (⟨[]⟩ : FsState) =
      .ok ({ success := false, error := some "ZodError: path Required" },
        (⟨[]⟩ : FsState)) := by
  refine ⟨rfl, ?_, rfl⟩
  intro r hcon
  have h : (Except.error "ZodError: path Required" :
      Except String (ToolResult × FsState)) = .ok r := by
    rw [← hcon]
    rfl
  exact Except.noConfusion h

/- ============ Session aliasing model (getMessages copy semantics) ======= -/

/-- A JS heap value: a message object (whose `timestamp` field holds a
REFERENCE to a Date object), a mutable Date object, or an array of object
references.  `Date` is a mutable object in JS, so it lives on the heap as
its own object rather than being flattened into the message. -/
inductive HVal where
  | msg (role : Role) (content : String) (timestampId : Nat)
  | date (time : Nat)
  | arr (elems : List Nat)
deriving DecidableEq, Repr

/-- A tiny JS heap: an allocation counter and an association list from
object identity to current value (later entries shadow earlier ones). -/
structure JsHeap where
  next : Nat
  store : List (Nat × HVal)
deriving DecidableEq, Repr

/-- Dereference an object identity. -/
def JsHeap.get (h : JsHeap) (i : Nat) : Option HVal :=
  (h.store.find? (fun e => e.1 == i)).map (fun e => e.2)

/-- Mutate the object at `i` (a JS assignment or `Date.setTime` through a
reference). -/
def JsHeap.put (h : JsHeap) (i : Nat) (v : HVal) : JsHeap :=
  { h with store := (i, v) :: h.store }

/-- Allocate a fresh object. -/
def JsHeap.alloc (h : JsHeap) (v : HVal) : Nat × JsHeap :=
  (h.next, { next := h.next + 1, store := (h.next, v) :: h.store })

/-- The heap-level session manager state: the identity of the internal
`this.messages` array. -/
structure HSession where
  heap : JsHeap
  msgsId : Nat
deriving DecidableEq, Repr

/-- One well-formed message slot: a message object whose `timestamp`
field references a Date object. -/
def okMsgB (h : JsHeap) (i : Nat) : Bool :=
  match h.get i with
  | some (.msg _ _ tid) =>
    match h.get tid with
    | some (.date _) => true
    | _ => false
  | _ => false

/-- Well-formedness: every stored identity is below the allocation
counter, `msgsId` refers to an array, and its elements are well-formed
message slots. -/
def HSession.wfB (s : HSession) : Bool :=
  s.heap.store.all (fun e => e.1 < s.heap.next) &&
  match s.heap.get s.msgsId with
  | some (.arr elems) => elems.all (okMsgB s.heap)
  | _ => false

/-- A freshly constructed session manager: one empty internal array. -/
def initialHSession : HSession :=
  { heap := { next := 1, store := [(0, HVal.arr [])] }, msgsId := 0 }

/-- `addMessage` at the heap level: `new Date()` allocates a Date object,
the message literal allocates a message object referencing it, and the
reference is pushed onto `this.messages` — the array keeps its
identity. -/
def HSession.addMsg (s : HSession) (role : Role) (content : String)
    (timestamp : Nat) : HSession :=
  match s.heap.get s.msgsId with
  | some (.arr elems) =>
    let d := s.heap.alloc (.date timestamp)
    let a := d.2.alloc (.msg role content d.1)
    { s with heap := a.2.put s.msgsId (.arr (elems ++ [a.1])) }
  | _ => s

/-- A sequence of `addMessage` calls. -/
def addAllMsgs (s : HSession) : List (Role × String × Nat) → HSession
  | [] => s
  | e :: rest => addAllMsgs (s.addMsg e.1 e.2.1 e.2.2) rest

/-- The copy loop of `getMessages`
(`this.messages.map(msg => ({ ...msg }))`): the spread is a SHALLOW copy —
it allocates a fresh message object per message but copies the `timestamp`
field verbatim, so the copy references the SAME Date object as the
internal message. -/
def copyMsgs (h : JsHeap) : List Nat → Option (List Nat × JsHeap)
  | [] => some ([], h)
  | i :: rest =>
    match h.get i with
    | some (.msg r c tid) =>
      let a := h.alloc (.msg r c tid)
      match copyMsgs a.2 rest with
      | some pr => some (a.1 :: pr.1, pr.2)
      | none => none
    | _ => none

/-- `getMessages` at the heap level: shallow-copy every message object,
then allocate the fresh result array; returns the new array's identity
and the heap after the allocations. -/
def HSession.getMsgs (s : HSession) : Option (Nat × JsHeap) :=
  match s.heap.get s.msgsId with
  | some (.arr elems) =>
    match copyMsgs s.heap elems with
    | some pr =>
      let a := pr.2.alloc (.arr pr.1)
      some (a.1, a.2)
    | none => none
  | _ => none

/-- Read the visible value of one message object, dereferencing its Date. -/
def readMsg1 (h : JsHeap) (i : Nat) : Option SessionMessage :=
  match h.get i with
  | some (.msg r c tid) =>
    match h.get tid with
    | some (.date t) => some { role := r, content := c, timestamp := t }
    | _ => none
  | _ => none

/-- Read the message values behind a reference list. -/
def readMsgs (h : JsHeap) : List Nat → Option (List SessionMessage)
  | [] => some []
  | i :: rest =>
    match readMsg1 h i with
    | some m =>
      match readMsgs h rest with
      | some ms => some (m :: ms)
      | none => none
    | none => none

/-- Read the message sequence of an array object. -/
def readLog (h : JsHeap) (arrId : Nat) : Option (List SessionMessage) :=
  match h.get arrId with
  | some (.arr elems) => readMsgs h elems
  | _ => none

/-- The `timestamp` field of a message object: the Date reference that the
shallow spread copies verbatim. -/
def msgTimestampId (h : JsHeap) (i : Nat) : Option Nat :=
  match h.get i with
  | some (.msg _ _ tid) => some tid
  | _ => none

/- ------------- heap lemmas ------------- -/

theorem JsHeap.get_put (h : JsHeap) (i j : Nat) (v : HVal) :
    (h.put j v).get i = if j = i then some v else h.get i := by
  by_cases hij : j = i
  · simp [JsHeap.get, JsHeap.put, List.find?, hij]
  · have hb : (j == i) = false := by simpa using hij
    simp [JsHeap.get, JsHeap.put, List.find?, hb, hij]

theorem JsHeap.get_alloc (h : JsHeap) (i : Nat) (v : HVal) :
    (h.alloc v).2.get i = if h.next = i then some v else h.get i := by
  by_cases hij : h.next = i
  · simp [JsHeap.get, JsHeap.alloc, List.find?, hij]
  · have hb : (h.next == i) = false := by simpa using hij
    simp [JsHeap.get, JsHeap.alloc, List.find?, hb, hij]

theorem JsHeap.get_lt (h : JsHeap) (hstore : ∀ e ∈ h.store, e.1 < h.next)
    (i : Nat) (v : HVal) (hget : h.get i = some v) : i < h.next := by
  unfold JsHeap.get at hget
  cases hfind : h.store.find? (fun e => e.1 == i) with
  | none => rw [hfind] at hget; exact absurd hget (by simp)
  | some e =>
    have hmem := List.mem_of_find?_eq_some hfind
    have hbeq := List.find?_some hfind
    have heq : e.1 = i := by simpa using hbeq
    exact heq ▸ hstore e hmem

theorem readMsg1_eq (h : JsHeap) (i : Nat) (r : Role) (c : String)
    (tid t : Nat) (hm : h.get i = some (.msg r c tid))
    (hd : h.get tid = some (.date t)) :
    readMsg1 h i = some { role := r, content := c, timestamp := t } := by
  unfold readMsg1
  simp only [hm, hd]

theorem readMsg1_agree (h1 h2 : JsHeap) (i : Nat) (r : Role) (c : String)
    (tid t : Nat) (hm : h1.get i = some (.msg r c tid))
    (_hd : h1.get tid = some (.date t))
    (ha : h2.get i = h1.get i) (hb : h2.get tid = h1.get tid) :
    readMsg1 h2 i = readMsg1 h1 i := by
  unfold readMsg1
  rw [ha]
  simp only [hm]
  rw [hb]

theorem readMsgs_congr (h1 h2 : JsHeap) (l : List Nat)
    (hagree : ∀ i ∈ l, readMsg1 h2 i = readMsg1 h1 i) :
    readMsgs h2 l = readMsgs h1 l := by
  induction l with
  | nil => rfl
  | cons i rest ih =>
    unfold readMsgs
    rw [hagree i (by simp), ih (fun j hj => hagree j (by simp [hj]))]

theorem readMsgs_append_some (h : JsHeap) (l1 l2 : List Nat)
    (a b : List SessionMessage)
    (h1 : readMsgs h l1 = some a) (h2 : readMsgs h l2 = some b) :
    readMsgs h (l1 ++ l2) = some (a ++ b) := by
  induction l1 generalizing a with
  | nil =>
    simp only [readMsgs] at h1
    injection h1 with h1
    subst h1
    simpa using h2
  | cons i rest ih =>
    simp only [List.cons_append, readMsgs, List.append_eq] at h1 ⊢
    cases hg : readMsg1 h i with
    | none =>
      simp only [hg] at h1
      exact Option.noConfusion h1
    | some m =>
      simp only [hg] at h1 ⊢
      cases hr : readMsgs h rest with
      | none =>
        simp only [hr] at h1
        exact Option.noConfusion h1
      | some ms =>
        simp only [hr] at h1
        injection h1 with h1
        subst h1
        rw [ih ms hr]
        simp

theorem map_tsid_agree (h1 h2 : JsHeap) (l : List Nat)
    (hagree : ∀ i ∈ l, h2.get i = h1.get i) :
    l.map (fun i => msgTimestampId h2 i) = l.map (fun i => msgTimestampId h1 i) := by
  induction l with
  | nil => rfl
  | cons i rest ih =>
    simp only [List.map_cons]
    have hh : msgTimestampId h2 i = msgTimestampId h1 i := by
      unfold msgTimestampId
      rw [hagree i (by simp)]
    rw [hh, ih (fun j hj => hagree j (by simp [hj]))]

theorem wfB_parts (s : HSession) (hwf : s.wfB = true) :
    (∀ e ∈ s.heap.store, e.1 < s.heap.next) ∧
    ∃ elems, s.heap.get s.msgsId = some (.arr elems) ∧
      ∀ i ∈ elems, ∃ r c tid t, s.heap.get i = some (.msg r c tid) ∧
        s.heap.get tid = some (.date t) := by
  unfold HSession.wfB at hwf
  rw [Bool.and_eq_true] at hwf
  obtain ⟨hall, hmatch⟩ := hwf
  constructor
  · intro e he
    have := List.all_eq_true.mp hall e he
    simpa using this
  · cases hm : s.heap.get s.msgsId with
    | none => rw [hm] at hmatch; exact absurd hmatch (by simp)
    | some v =>
      cases v with
      | msg r c tid => rw [hm] at hmatch; exact absurd hmatch (by simp)
      | date t => rw [hm] at hmatch; exact absurd hmatch (by simp)
      | arr elems =>
        rw [hm] at hmatch
        refine ⟨elems, rfl, ?_⟩
        intro i hi
        have hi2 := List.all_eq_true.mp hmatch i hi
        unfold okMsgB at hi2
        cases hg : s.heap.get i with
        | none => rw [hg] at hi2; exact absurd hi2 (by simp)
        | some v2 =>
          cases v2 with
          | msg r c tid =>
            simp only [hg] at hi2
            cases hg2 : s.heap.get tid with
            | none => simp only [hg2] at hi2; exact absurd hi2 (by simp)
            | some v3 =>
              cases v3 with
              | msg r2 c2 tid2 => simp only [hg2] at hi2; exact absurd hi2 (by simp)
              | date t => exact ⟨r, c, tid, t, rfl, hg2⟩
              | arr e2 => simp only [hg2] at hi2; exact absurd hi2 (by simp)
          | date t => rw [hg] at hi2; exact absurd hi2 (by simp)
          | arr e2 => rw [hg] at hi2; exact absurd hi2 (by simp)

theorem copyMsgs_spec (elems : List Nat) :
    ∀ h : JsHeap,
      (∀ e ∈ h.store, e.1 < h.next) →
      (∀ i ∈ elems, ∃ r c tid t, h.get i = some (.msg r c tid) ∧
        h.get tid = some (.date t)) →
      ∃ cids h2, copyMsgs h elems = some (cids, h2) ∧
        h.next ≤ h2.next ∧
        (∀ e ∈ h2.store, e.1 < h2.next) ∧
        (∀ i, i < h.next → h2.get i = h.get i) ∧
        (∀ c ∈ cids, h.next ≤ c ∧ c < h2.next) ∧
        readMsgs h2 cids = readMsgs h elems ∧
        cids.map (fun x => msgTimestampId h2 x) =
          elems.map (fun x => msgTimestampId h x) ∧
        (∀ c2 ∈ cids, ∃ j r2 cc tid2 t2, j ∈ elems ∧
          h.get j = some (.msg r2 cc tid2) ∧ h.get tid2 = some (.date t2) ∧
          h2.get c2 = some (.msg r2 cc tid2) ∧
          h2.get tid2 = some (.date t2)) := by
  induction elems with
  | nil =>
    intro h hstore helems
    exact ⟨[], h, rfl, Nat.le_refl _, hstore, fun i _ => rfl, by simp, rfl, rfl,
      by simp⟩
  | cons i rest ih =>
    intro h hstore helems
    obtain ⟨r, c, tid, t, hm, hd⟩ := helems i (by simp)
    have hilt : i < h.next := JsHeap.get_lt h hstore i _ hm
    have htidlt : tid < h.next := JsHeap.get_lt h hstore tid _ hd
    have hstore1 : ∀ e ∈ ((h.alloc (HVal.msg r c tid)).2).store,
        e.1 < ((h.alloc (HVal.msg r c tid)).2).next := by
      intro e he
      simp only [JsHeap.alloc] at he ⊢
      rcases List.mem_cons.mp he with he1 | he2
      · rw [he1]; omega
      · have := hstore e he2; omega
    have helems1 : ∀ j ∈ rest, ∃ r2 c2 tid2 t2,
        ((h.alloc (HVal.msg r c tid)).2).get j = some (.msg r2 c2 tid2) ∧
        ((h.alloc (HVal.msg r c tid)).2).get tid2 = some (.date t2) := by
      intro j hj
      obtain ⟨r2, c2, tid2, t2, hm2, hd2⟩ := helems j (by simp [hj])
      have hjlt : j < h.next := JsHeap.get_lt h hstore j _ hm2
      have htid2lt : tid2 < h.next := JsHeap.get_lt h hstore tid2 _ hd2
      refine ⟨r2, c2, tid2, t2, ?_, ?_⟩
      · rw [JsHeap.get_alloc, if_neg (by omega)]; exact hm2
      · rw [JsHeap.get_alloc, if_neg (by omega)]; exact hd2
    obtain ⟨cids, h2, hcopy, hnext, hstore2, hpres, hfresh, hread, hshare, hfacts0⟩ :=
      ih ((h.alloc (HVal.msg r c tid)).2) hstore1 helems1
    have hnext1 : ((h.alloc (HVal.msg r c tid)).2).next = h.next + 1 := rfl
    have hget_new : h2.get h.next = some (.msg r c tid) := by
      rw [hpres h.next (by omega), JsHeap.get_alloc, if_pos rfl]
    have hget_tid : h2.get tid = some (.date t) := by
      rw [hpres tid (by omega), JsHeap.get_alloc, if_neg (by omega)]
      exact hd
    refine ⟨h.next :: cids, h2, ?_, by omega, hstore2, ?_, ?_, ?_, ?_, ?_⟩
    · simp only [copyMsgs, hm]
      rw [hcopy]
      rfl
    · intro j hj
      rw [hpres j (by omega), JsHeap.get_alloc, if_neg (by omega)]
    · intro d hdm
      rcases List.mem_cons.mp hdm with hd1 | hd2
      · subst hd1
        exact ⟨Nat.le_refl _, by omega⟩
      · have := hfresh d hd2
        omega
    · have hrest : readMsgs ((h.alloc (HVal.msg r c tid)).2) rest =
          readMsgs h rest := by
        apply readMsgs_congr
        intro j hj
        obtain ⟨r2, c2, tid2, t2, hm2, hd2⟩ := helems j (by simp [hj])
        have hjlt : j < h.next := JsHeap.get_lt h hstore j _ hm2
        have htl : tid2 < h.next := JsHeap.get_lt h hstore tid2 _ hd2
        refine readMsg1_agree h _ j r2 c2 tid2 t2 hm2 hd2 ?_ ?_
        · rw [JsHeap.get_alloc, if_neg (by omega)]
        · rw [JsHeap.get_alloc, if_neg (by omega)]
      have hnew1 : readMsg1 h2 h.next =
          some { role := r, content := c, timestamp := t } :=
        readMsg1_eq h2 h.next r c tid t hget_new hget_tid
      have hold1 : readMsg1 h i =
          some { role := r, content := c, timestamp := t } :=
        readMsg1_eq h i r c tid t hm hd
      simp only [readMsgs, hnew1, hold1]
      rw [hread, hrest]
    · simp only [List.map_cons]
      have hhead : msgTimestampId h2 h.next = msgTimestampId h i := by
        unfold msgTimestampId
        rw [hget_new, hm]
      have htail : cids.map (fun x => msgTimestampId h2 x) =
          rest.map (fun x => msgTimestampId h x) := by
        rw [hshare]
        apply map_tsid_agree
        intro j hj
        obtain ⟨r2, c2, tid2, t2, hm2, hd2⟩ := helems j (by simp [hj])
        have hjlt : j < h.next := JsHeap.get_lt h hstore j _ hm2
        rw [JsHeap.get_alloc, if_neg (by omega)]
      rw [hhead, htail]
    · intro c3 hc3
      rcases List.mem_cons.mp hc3 with hc1 | hc4
      · subst hc1
        exact ⟨i, r, c, tid, t, by simp, hm, hd, hget_new, hget_tid⟩
      · obtain ⟨j, r2, cc, tid2, t2, hjmem, hmj1, hdj1, hg2, hgt2⟩ := hfacts0 c3 hc4
        obtain ⟨r3, c3v, tid3, t3, hm3, hd3⟩ := helems j (by simp [hjmem])
        have hjlt : j < h.next := JsHeap.get_lt h hstore j _ hm3
        have hpj : ((h.alloc (HVal.msg r c tid)).2).get j = h.get j := by
          rw [JsHeap.get_alloc, if_neg (by omega)]
        have hval : h.get j = some (.msg r2 cc tid2) := by
          rw [← hpj]
          exact hmj1
        obtain ⟨her, hec, het⟩ := HVal.msg.inj (Option.some.inj (hm3.symm.trans hval))
        have hdtid2 : h.get tid2 = some (.date t3) := by
          rw [← het]
          exact hd3
        have htid2lt : tid2 < h.next := by
          rw [← het]
          exact JsHeap.get_lt h hstore tid3 _ hd3
        have hpt : ((h.alloc (HVal.msg r c tid)).2).get tid2 = h.get tid2 := by
          rw [JsHeap.get_alloc, if_neg (by omega)]
        have ht23 : t2 = t3 := by
          have hcomb := ((hpt.symm.trans hdj1).symm.trans hdtid2)
          exact HVal.date.inj (Option.some.inj hcomb)
        have hdtid2b : h.get tid2 = some (.date t2) := by
          rw [ht23]
          exact hdtid2
        exact ⟨j, r2, cc, tid2, t2, by simp [hjmem], hval, hdtid2b, hg2, hgt2⟩

theorem addMsg_spec (s : HSession) (hwf : s.wfB = true) (r : Role) (c : String)
    (t : Nat) (l : List SessionMessage)
    (hlog : readLog s.heap s.msgsId = some l) :
    (s.addMsg r c t).wfB = true ∧ (s.addMsg r c t).msgsId = s.msgsId ∧
    readLog (s.addMsg r c t).heap s.msgsId =
      some (l ++ [{ role := r, content := c, timestamp := t }]) := by
  obtain ⟨hstore, elems, harr, hmsgs⟩ := wfB_parts s hwf
  have hmid : s.msgsId < s.heap.next := JsHeap.get_lt s.heap hstore _ _ harr
  have hn1 : (s.heap.alloc (HVal.date t)).2.next = s.heap.next + 1 := rfl
  have haddDef : s.addMsg r c t =
      { s with
        heap := JsHeap.put ((s.heap.alloc (HVal.date t)).2.alloc
          (HVal.msg r c s.heap.next)).2 s.msgsId
          (HVal.arr (elems ++ [s.heap.next + 1])) } := by
    unfold HSession.addMsg
    rw [harr]
    rfl
  have hmsgsId : (s.addMsg r c t).msgsId = s.msgsId := by
    rw [haddDef]
  have g1 : ((s.addMsg r c t).heap).get s.msgsId =
      some (.arr (elems ++ [s.heap.next + 1])) := by
    rw [haddDef]
    simp only []
    rw [JsHeap.get_put, if_pos rfl]
  have gpres : ∀ x, x < s.heap.next → x ≠ s.msgsId →
      ((s.addMsg r c t).heap).get x = s.heap.get x := by
    intro x hx hxne
    rw [haddDef]
    simp only []
    rw [JsHeap.get_put, if_neg (fun he => hxne he.symm)]
    rw [JsHeap.get_alloc, if_neg (by omega)]
    rw [JsHeap.get_alloc, if_neg (by omega)]
  have gnewmsg : ((s.addMsg r c t).heap).get (s.heap.next + 1) =
      some (.msg r c s.heap.next) := by
    rw [haddDef]
    simp only []
    rw [JsHeap.get_put, if_neg (by omega)]
    rw [JsHeap.get_alloc, if_pos hn1]
  have gnewdate : ((s.addMsg r c t).heap).get s.heap.next = some (.date t) := by
    rw [haddDef]
    simp only []
    rw [JsHeap.get_put, if_neg (by omega)]
    rw [JsHeap.get_alloc, if_neg (by omega)]
    rw [JsHeap.get_alloc, if_pos rfl]
  have helemfacts : ∀ j ∈ elems, ∃ r2 c2 tid2 t2,
      s.heap.get j = some (.msg r2 c2 tid2) ∧ s.heap.get tid2 = some (.date t2) ∧
      j < s.heap.next ∧ tid2 < s.heap.next ∧ j ≠ s.msgsId ∧ tid2 ≠ s.msgsId := by
    intro j hj
    obtain ⟨r2, c2, tid2, t2, hm2, hd2⟩ := hmsgs j hj
    refine ⟨r2, c2, tid2, t2, hm2, hd2,
      JsHeap.get_lt s.heap hstore j _ hm2,
      JsHeap.get_lt s.heap hstore tid2 _ hd2, ?_, ?_⟩
    · intro he
      rw [he, harr] at hm2
      exact HVal.noConfusion (Option.some.inj hm2)
    · intro he
      rw [he, harr] at hd2
      exact HVal.noConfusion (Option.some.inj hd2)
  refine ⟨?_, hmsgsId, ?_⟩
  · unfold HSession.wfB
    rw [Bool.and_eq_true]
    constructor
    · apply List.all_eq_true.mpr
      intro e he
      have hstore_new : (s.addMsg r c t).heap.store =
          (s.msgsId, HVal.arr (elems ++ [s.heap.next + 1])) ::
            (s.heap.next + 1, HVal.msg r c s.heap.next) ::
            (s.heap.next, HVal.date t) :: s.heap.store := by
        rw [haddDef]
        rfl
      have hnext_new : (s.addMsg r c t).heap.next = s.heap.next + 2 := by
        rw [haddDef]
        rfl
      rw [hstore_new] at he
      rw [hnext_new]
      rcases List.mem_cons.mp he with he1 | he2
      · rw [he1]
        simp only [decide_eq_true_eq]
        omega
      · rcases List.mem_cons.mp he2 with he3 | he4
        · rw [he3]
          simp only [decide_eq_true_eq]
          omega
        · rcases List.mem_cons.mp he4 with he5 | he6
          · rw [he5]
            simp only [decide_eq_true_eq]
            omega
          · have := hstore e he6
            simp only [decide_eq_true_eq]
            omega
    · rw [hmsgsId]
      simp only [g1]
      apply List.all_eq_true.mpr
      intro j hj
      rcases List.mem_append.mp hj with hj1 | hj2
      · obtain ⟨r2, c2, tid2, t2, hm2, hd2, hjlt, htlt, hjne, htne⟩ :=
          helemfacts j hj1
        unfold okMsgB
        simp only [gpres j hjlt hjne, hm2, gpres tid2 htlt htne, hd2]
      · have hj3 : j = s.heap.next + 1 := by simpa using hj2
        unfold okMsgB
        simp only [hj3, gnewmsg, gnewdate]
  · unfold readLog
    simp only [g1]
    have hlog2 : readMsgs s.heap elems = some l := by
      unfold readLog at hlog
      simp only [harr] at hlog
      exact hlog
    have helems_pres : readMsgs ((s.addMsg r c t).heap) elems =
        readMsgs s.heap elems := by
      apply readMsgs_congr
      intro j hj
      obtain ⟨r2, c2, tid2, t2, hm2, hd2, hjlt, htlt, hjne, htne⟩ := helemfacts j hj
      exact readMsg1_agree s.heap _ j r2 c2 tid2 t2 hm2 hd2
        (gpres j hjlt hjne) (gpres tid2 htlt htne)
    have hsingle : readMsgs ((s.addMsg r c t).heap) [s.heap.next + 1] =
        some [{ role := r, content := c, timestamp := t }] := by
      have h1m : readMsg1 ((s.addMsg r c t).heap) (s.heap.next + 1) =
          some { role := r, content := c, timestamp := t } :=
        readMsg1_eq _ _ r c s.heap.next t gnewmsg gnewdate
      simp only [readMsgs, h1m]
    exact readMsgs_append_some _ _ _ _ _ (helems_pres.trans hlog2) hsingle

theorem addAll_spec (adds : List (Role × String × Nat)) :
    ∀ (s : HSession) (l : List SessionMessage),
      s.wfB = true → readLog s.heap s.msgsId = some l →
      (addAllMsgs s adds).wfB = true ∧
      (addAllMsgs s adds).msgsId = s.msgsId ∧
      readLog (addAllMsgs s adds).heap s.msgsId =
        some (l ++ adds.map (fun e =>
          { role := e.1, content := e.2.1, timestamp := e.2.2 })) := by
  induction adds with
  | nil =>
    intro s l hwf hlog
    exact ⟨hwf, rfl, by simpa using hlog⟩
  | cons e rest ih =>
    intro s l hwf hlog
    obtain ⟨hwf1, hid1, hlog1⟩ := addMsg_spec s hwf e.1 e.2.1 e.2.2 l hlog
    have hlog1b : readLog (s.addMsg e.1 e.2.1 e.2.2).heap
        (s.addMsg e.1 e.2.1 e.2.2).msgsId =
        some (l ++ [{ role := e.1, content := e.2.1, timestamp := e.2.2 }]) := by
      rw [hid1]
      exact hlog1
    obtain ⟨hwf2, hid2, hlog2⟩ := ih (s.addMsg e.1 e.2.1 e.2.2) _ hwf1 hlog1b
    refine ⟨hwf2, ?_, ?_⟩
    · show (addAllMsgs (s.addMsg e.1 e.2.1 e.2.2) rest).msgsId = s.msgsId
      rw [hid2, hid1]
    · show readLog (addAllMsgs (s.addMsg e.1 e.2.1 e.2.2) rest).heap s.msgsId =
        some (l ++ (e :: rest).map (fun e =>
          { role := e.1, content := e.2.1, timestamp := e.2.2 }))
      rw [← hid1, hlog2]
      simp

theorem getMsgs_fresh (s : HSession) (hwf : s.wfB = true) :
    ∃ aid cids h2,
      s.getMsgs = some (aid, h2) ∧
      aid ≠ s.msgsId ∧
      h2.get aid = some (.arr cids) ∧
      readLog h2 aid = readLog s.heap s.msgsId ∧
      (∀ i, (i = aid ∨ i ∈ cids) → ∀ v,
        readLog (h2.put i v) s.msgsId = readLog s.heap s.msgsId) ∧
      (∃ elems, h2.get s.msgsId = some (.arr elems) ∧
        cids.map (fun x => msgTimestampId h2 x) =
          elems.map (fun x => msgTimestampId h2 x)) := by
  obtain ⟨hstore, elems, harr, hmsgs⟩ := wfB_parts s hwf
  obtain ⟨cids, hcop, hcopy, hnext, hstorec, hpres, hfresh, hread, hshare, hfacts⟩ :=
    copyMsgs_spec elems s.heap hstore hmsgs
  have hmid : s.msgsId < s.heap.next := JsHeap.get_lt s.heap hstore _ _ harr
  have helemfacts : ∀ j ∈ elems, ∃ r2 c2 tid2 t2,
      s.heap.get j = some (.msg r2 c2 tid2) ∧ s.heap.get tid2 = some (.date t2) ∧
      j < s.heap.next ∧ tid2 < s.heap.next := by
    intro j hj
    obtain ⟨r2, c2, tid2, t2, hm2, hd2⟩ := hmsgs j hj
    exact ⟨r2, c2, tid2, t2, hm2, hd2, JsHeap.get_lt s.heap hstore j _ hm2,
      JsHeap.get_lt s.heap hstore tid2 _ hd2⟩
  have hgm : s.getMsgs = some (hcop.next, (hcop.alloc (.arr cids)).2) := by
    unfold HSession.getMsgs
    simp only [harr]
    rw [hcopy]
    rfl
  have hga : ((hcop.alloc (HVal.arr cids)).2).get hcop.next =
      some (HVal.arr cids) := by
    rw [JsHeap.get_alloc, if_pos rfl]
  have hgm2 : ((hcop.alloc (HVal.arr cids)).2).get s.msgsId =
      some (HVal.arr elems) := by
    rw [JsHeap.get_alloc, if_neg (by omega), hpres s.msgsId hmid, harr]
  refine ⟨hcop.next, cids, (hcop.alloc (.arr cids)).2, hgm, by omega, hga,
    ?_, ?_, ?_⟩
  · unfold readLog
    simp only [hga, harr]
    have hagree : ∀ c2 ∈ cids,
        readMsg1 ((hcop.alloc (HVal.arr cids)).2) c2 = readMsg1 hcop c2 := by
      intro c2 hc2
      obtain ⟨j, r2, cc, tid2, t2, hjmem, hmj, hdj, hg2, hgt2⟩ := hfacts c2 hc2
      have htlt : tid2 < s.heap.next := JsHeap.get_lt s.heap hstore tid2 _ hdj
      have hclt := hfresh c2 hc2
      refine readMsg1_agree hcop _ c2 r2 cc tid2 t2 hg2 hgt2 ?_ ?_
      · rw [JsHeap.get_alloc, if_neg (by omega)]
      · rw [JsHeap.get_alloc, if_neg (by omega)]
    rw [readMsgs_congr hcop _ cids hagree, hread]
  · intro i hi v
    have hige : s.heap.next ≤ i := by
      rcases hi with hi1 | hi2
      · omega
      · exact (hfresh i hi2).1
    have hilt : ¬ i = s.msgsId := by omega
    have hgput : (((hcop.alloc (HVal.arr cids)).2).put i v).get s.msgsId =
        some (HVal.arr elems) := by
      rw [JsHeap.get_put, if_neg hilt, JsHeap.get_alloc, if_neg (by omega),
        hpres s.msgsId hmid, harr]
    unfold readLog
    simp only [hgput, harr]
    apply readMsgs_congr
    intro j hj
    obtain ⟨r2, c2, tid2, t2, hm2, hd2, hjlt, htlt⟩ := helemfacts j hj
    refine readMsg1_agree s.heap _ j r2 c2 tid2 t2 hm2 hd2 ?_ ?_
    · rw [JsHeap.get_put, if_neg (by omega), JsHeap.get_alloc, if_neg (by omega)]
      exact hpres j hjlt
    · rw [JsHeap.get_put, if_neg (by omega), JsHeap.get_alloc, if_neg (by omega)]
      exact hpres tid2 htlt
  · refine ⟨elems, hgm2, ?_⟩
    have hmc : cids.map (fun x => msgTimestampId ((hcop.alloc (HVal.arr cids)).2) x) =
        cids.map (fun x => msgTimestampId hcop x) := by
      apply map_tsid_agree
      intro c2 hc2
      have := hfresh c2 hc2
      rw [JsHeap.get_alloc, if_neg (by omega)]
    have hme : elems.map (fun x => msgTimestampId ((hcop.alloc (HVal.arr cids)).2) x) =
        elems.map (fun x => msgTimestampId s.heap x) := by
      apply map_tsid_agree
      intro j hj
      obtain ⟨r2, c2, tid2, t2, hm2, hd2, hjlt, htlt⟩ := helemfacts j hj
      rw [JsHeap.get_alloc, if_neg (by omega)]
      exact hpres j hjlt
    calc cids.map (fun x => msgTimestampId ((hcop.alloc (HVal.arr cids)).2) x)
        = cids.map (fun x => msgTimestampId hcop x) := hmc
      _ = elems.map (fun x => msgTimestampId s.heap x) := hshare
      _ = elems.map (fun x => msgTimestampId ((hcop.alloc (HVal.arr cids)).2) x) :=
          hme.symm

/-- C6 amended: starting from a freshly constructed session manager,
after any sequence of `addMessage` calls `getMessages` returns a FRESH
array — its identity differs from the internal `this.messages` — of
freshly allocated message objects whose visible values list the added
messages in exact insertion order, and mutating the returned array or
any copied message object itself leaves the internal log unchanged; BUT
the spread copy is SHALLOW: each copied message's `timestamp` field holds
the very same Date reference as the corresponding internal message (the
two reference lists have pointwise-equal timestamp references), which is
the channel through which a caller can still reach internal state. -/
theorem getMessages_shallow_copy_spec (adds : List (Role × String × Nat)) :
    ∃ aid cids h2,
      (addAllMsgs initialHSession adds).getMsgs = some (aid, h2) ∧
      aid ≠ (addAllMsgs initialHSession adds).msgsId ∧
      h2.get aid = some (.arr cids) ∧
      readLog h2 aid = some (adds.map (fun e =>
        { role := e.1, content := e.2.1, timestamp := e.2.2 })) ∧
      (∀ i, (i = aid ∨ i ∈ cids) → ∀ v,
        readLog (h2.put i v) (addAllMsgs initialHSession adds).msgsId =
          some (adds.map (fun e =>
            { role := e.1, content := e.2.1, timestamp := e.2.2 }))) ∧
      (∃ elems, h2.get (addAllMsgs initialHSession adds).msgsId =
          some (.arr elems) ∧
        cids.map (fun x => msgTimestampId h2 x) =
          elems.map (fun x => msgTimestampId h2 x)) := by
  have hinit_wf : initialHSession.wfB = true := rfl
  have hinit_log : readLog initialHSession.heap initialHSession.msgsId =
      some [] := rfl
  obtain ⟨hwf, hid, hlog⟩ := addAll_spec adds initialHSession [] hinit_wf hinit_log
  obtain ⟨aid, cids, h2, hgm, hne, hget, hread, hframe, hshare⟩ :=
    getMsgs_fresh (addAllMsgs initialHSession adds) hwf
  refine ⟨aid, cids, h2, hgm, hne, hget, ?_, ?_, hshare⟩
  · rw [hread, hid, hlog]
    simp
  · intro i hi v
    rw [hframe i hi v, hid, hlog]
    simp

/-- C6 witness: the amended theorem applied to a single concrete
`addMessage` call. -/
theorem getMessages_shallow_copy_spec_witness :
    ∃ aid cids h2,
      (addAllMsgs initialHSession [(Role.user, "hi", 5)]).getMsgs = some (aid, h2) ∧
      aid ≠ (addAllMsgs initialHSession [(Role.user, "hi", 5)]).msgsId ∧
      h2.get aid = some (.arr cids) ∧
      readLog h2 aid = some [{ role := Role.user, content := "hi", timestamp := 5 }] ∧
      (∀ i, (i = aid ∨ i ∈ cids) → ∀ v,
        readLog (h2.put i v)
            (addAllMsgs initialHSession [(Role.user, "hi", 5)]).msgsId =
          some [{ role := Role.user, content := "hi", timestamp := 5 }]) ∧
      (∃ elems, h2.get (addAllMsgs initialHSession [(Role.user, "hi", 5)]).msgsId =
          some (.arr elems) ∧
        cids.map (fun x => msgTimestampId h2 x) =
          elems.map (fun x => msgTimestampId h2 x)) :=
  getMessages_shallow_copy_spec [(Role.user, "hi", 5)]

/-- The session after one `addMessage('user', 'hi')` at time 5: Date
object 1, message object 2, internal array object 0 holding [2]. -/
def sessionOneMsg : HSession :=
  addAllMsgs initialHSession [(Role.user, "hi", 5)]

/-- The `(array identity, heap)` pair returned by `getMessages` on that
session: array object 4 holding the copied message object 3. -/
def copiedPair : Nat × JsHeap :=
  match sessionOneMsg.getMsgs with
  | some pr => pr
  | none => (0, { next := 0, store := [] })

/-- C6 counterexample: the spread copy is shallow, so a caller CAN mutate
the session manager's internal state through the returned value.  The
returned array (object 4) holds copy object 3 whose `timestamp` field
references Date object 1 — the SAME Date the internal message object 2
references.  `getMessages()[0].timestamp.setTime(0)` writes that shared
Date through the returned value, and the internal log's visible timestamp
changes from 5 to 0. -/
theorem getMessages_shared_date_counterexample :
    sessionOneMsg.getMsgs = some copiedPair ∧
    copiedPair.2.get copiedPair.1 = some (.arr [3]) ∧
    msgTimestampId copiedPair.2 3 = some 1 ∧
    copiedPair.2.get sessionOneMsg.msgsId = some (.arr [2]) ∧
    msgTimestampId copiedPair.2 2 = some 1 ∧
    readLog copiedPair.2 sessionOneMsg.msgsId =
      some [{ role := Role.user, content := "hi", timestamp := 5 }] ∧
    readLog (copiedPair.2.put 1 (.date 0)) sessionOneMsg.msgsId =
      some [{ role := Role.user, content := "hi", timestamp := 0 }] :=
  ⟨rfl, rfl, rfl, rfl, rfl, rfl, rfl⟩
